import Mathlib

/-!
Verification of the component lifecycle scheduler and virtual-DOM diff engine
of the yew UI runtime, as a shallow embedding in Lean 4.

The embedding follows the source files:
* component lifecycle tasks : src/yew/src/component/lifecycle.rs
  (ComponentState, UpdateTask, ComponentTask, ComponentRunnable::run)
* link / downcast           : src/yew/src/component/link.rs (AnyLink::downcast)
* virtual list diffing      : src/src/virtual_dom/internal/vlist.rs (VList::apply)
* virtual components        : src/yew/src/virtual_dom/vcomp.rs (VComp)

Component callbacks (`create`, `update`, `changed`, `view`, `rendered`,
`destroy`) are user code behind the `Component` trait; they are modelled as
pure functions on an abstract component model type, and every callback
invocation performed by the runtime is recorded in an emission trace so that
"callback X was (not) invoked" is expressible.
-/

namespace Yew

/-- Shared-owned properties handle: an `Rc<COMP::Properties>`.  The `ptr`
field models the identity of the `Rc` allocation, `val` models the pointed-to
value; `*a != *b` in the source compares `val`s, while assignment replaces the
whole handle. -/
structure RcProps (P : Type) where
  ptr : Nat
  val : P
deriving DecidableEq, Repr

/-- Pure model of the user-implemented `Component` trait
(src/yew/src/component/mod.rs): each lifecycle callback is a pure function
from the component's private model `C` (the `&mut self`) and the context
properties to the new model plus its result. -/
structure ComponentImpl (M P V C : Type) where
  create : P → C
  update : C → P → M → C × Bool
  changed : C → P → P → C × Bool
  view : C → P → V
  rendered : C → P → Bool → C
  destroy : C → P → C

/-- The `UpdateTask` enum of src/yew/src/component/lifecycle.rs (identical to
`ComponentUpdate` in src/yew/src/component/link.rs). -/
inductive UpdateTask (M P : Type) where
  | first
  | message (msg : M)
  | messageBatch (msgs : List M)
  | properties (props : RcProps P) (node_ref : Nat) (next_sibling : Nat)
deriving DecidableEq, Repr

/-- The per-component mutable record `ComponentState` of
src/yew/src/component/lifecycle.rs.  DOM positions (`parent`, `next_sibling`,
`node_ref`) are opaque handles modelled as naturals; the `link` field is the
state slot itself and is left implicit. -/
structure ComponentState (M P V C : Type) where
  parent : Nat
  next_sibling : Nat
  node_ref : Nat
  component : C
  props : RcProps P
  placeholder : Option V
  last_root : Option V
  new_root : Option V
  has_rendered : Bool
  pending_updates : List (UpdateTask M P)
deriving DecidableEq, Repr

/-- The `ComponentTask` enum of src/yew/src/component/lifecycle.rs.  The
`create` variant carries the fields of `CreateTask`. -/
inductive ComponentTask (M P V : Type) where
  | create (parent next_sibling node_ref : Nat) (placeholder : Option V)
      (props : RcProps P)
  | update (e : UpdateTask M P)
  | render (first_render : Bool)
  | rendered (first_render : Bool)
  | destroy
deriving DecidableEq, Repr

/-- Observable emissions of one `ComponentRunnable::run` step: every component
callback invocation, every DOM-surface mutation, and every task (or atomic
task batch) pushed onto the scheduler, in the order they are performed. -/
inductive Emit (M P V : Type) where
  | created
  | updateCalled (msg : M)
  | changedCalled (newProps : P)
  | viewCalled
  | renderedCalled (first_render : Bool)
  | destroyCalled
  | applyRoot
  | detachRoot
  | sched (t : ComponentTask M P V)
  | schedBatch (ts : List (ComponentTask M P V))
deriving DecidableEq, Repr

variable {M P V C : Type}

/-- The fold of `UpdateTask::MessageBatch` in `ComponentRunnable::run`
(src/yew/src/component/lifecycle.rs lines 183-189):
`messages.into_iter().fold(false, |acc, msg| component.update(context, msg) || acc)`,
threading the mutable component through the fold. -/
def runMessageBatch (impl : ComponentImpl M P V C) (c : C) (p : P)
    (msgs : List M) : C × Bool :=
  msgs.foldl (fun acc msg =>
    let r := impl.update acc.1 p msg
    (r.1, r.2 || acc.2)) (c, false)

/-- The body of the `ComponentTask::Update` match in `ComponentRunnable::run`
after the render-in-flight guard has been passed: dispatches on the update
kind, returning the mutated state, the `should_update` flag and the callback
trace. -/
def processUpdate [DecidableEq P] (impl : ComponentImpl M P V C)
    (s : ComponentState M P V C) :
    UpdateTask M P → ComponentState M P V C × Bool × List (Emit M P V)
  | .first => (s, true, [])
  | .message msg =>
    let r := impl.update s.component s.props.val msg
    ({ s with component := r.1 }, r.2, [.updateCalled msg])
  | .messageBatch msgs =>
    let r := runMessageBatch impl s.component s.props.val msgs
    ({ s with component := r.1 }, r.2, msgs.map .updateCalled)
  | .properties props node_ref next_sibling =>
    let s1 := { s with node_ref := node_ref, next_sibling := next_sibling }
    if s.props.val ≠ props.val then
      let r := impl.changed s.component s.props.val props.val
      ({ s1 with component := r.1, props := props }, r.2,
        [.changedCalled props.val])
    else
      ({ s1 with props := props }, false, [])

/-- Outcome of one `Runnable::run` step: the task ran to completion with the
new slot contents and its emission trace, or a `RefCell` borrow violation
aborted it (the panic of Rust's `borrow_mut`). -/
inductive RunResult (M P V C : Type) where
  | ok (state : Option (ComponentState M P V C)) (events : List (Emit M P V))
  | panicked (msg : String)
deriving DecidableEq, Repr

/-- The runtime check of `RefCell::borrow_mut` on a cell whose borrow flag is
`borrowed`: it succeeds on an un-borrowed cell and panics with
`BorrowMutError` while another borrow is active. -/
def borrowMut (borrowed : Bool) : Except String Unit :=
  if borrowed then .error "already mutably borrowed: BorrowMutError"
  else .ok ()

/-- Body of a Render task on a populated state: lifecycle.rs lines 128-142,
identical to `RenderComponent::run` in src/yew/src/component/link.rs lines
523-544 (skip before the first render; apply the in-flight root, taking the
placeholder as ancestor only when there is no committed root; schedule the
Rendered task). -/
def renderBody (s : ComponentState M P V C) (first_render : Bool) :
    Option (ComponentState M P V C) × List (Emit M P V) :=
  if !first_render && s.last_root.isNone then (some s, [])
  else
    match s.new_root with
    | none => (some s, [])
    | some nr =>
      (some { s with
                new_root := none,
                last_root := some nr,
                placeholder :=
                  if s.last_root.isSome then s.placeholder else none },
        [.applyRoot, .sched (.rendered first_render)])

/-- Body of a Rendered task on a populated state: lifecycle.rs lines 147-165,
identical to `RenderedComponent::run` in src/yew/src/component/link.rs lines
562-579 (guard on the first render, invoke the `rendered` callback, then
drain a non-empty `pending_updates` queue as one scheduler batch). -/
def renderedBody (impl : ComponentImpl M P V C) (s : ComponentState M P V C)
    (first_render : Bool) :
    Option (ComponentState M P V C) × List (Emit M P V) :=
  if !first_render && !s.has_rendered then (some s, [])
  else
    let c2 := impl.rendered s.component s.props.val first_render
    (some { s with
              component := c2,
              has_rendered := true,
              pending_updates := [] },
      .renderedCalled first_render ::
        (if s.pending_updates.isEmpty then []
         else [.schedBatch (s.pending_updates.map .update)]))

/-- Body of a Destroy task on a populated state: lifecycle.rs lines 214-219,
identical to `DestroyComponent::run` in src/yew/src/component/link.rs lines
597-602 (invoke the `destroy` callback, detach the last rendered tree, leave
the slot empty). -/
def destroyBody (s : ComponentState M P V C) :
    Option (ComponentState M P V C) × List (Emit M P V) :=
  (none, [.destroyCalled] ++ (if s.last_root.isSome then [.detachRoot] else []))

/-- The task dispatcher `ComponentRunnable::run` of
src/yew/src/component/lifecycle.rs, borrow discipline included.  Line 112
takes `let mut current_state = self.state.borrow_mut()`; that `RefMut` is
dropped only when `run` returns, so it stays live across the entire match.
The Create and Update arms read `current_state` and execute their bodies.
The Render (line 127), Rendered (line 146) and Destroy (line 213) arms call
`self.state.borrow_mut()` a second time while that `RefMut` is live, so each
panics with `BorrowMutError` before reaching its body; the bodies sit behind
the never-succeeding re-borrow exactly as in the source. -/
def ComponentRunnable.run [DecidableEq P] (impl : ComponentImpl M P V C)
    (state : Option (ComponentState M P V C)) (task : ComponentTask M P V) :
    RunResult M P V C :=
  let line112RefMutLive := true
  match task with
  | .create parent next_sibling node_ref placeholder props =>
    match state with
    | none =>
      .ok (some { parent := parent, next_sibling := next_sibling,
                  node_ref := node_ref,
                  component := impl.create props.val, props := props,
                  placeholder := placeholder, last_root := none,
                  new_root := none, has_rendered := false,
                  pending_updates := [] })
        [.created]
    | some s => .ok (some s) []
  | .update e =>
    match state with
    | none => .ok none []
    | some s =>
      if s.new_root.isSome then
        .ok (some { s with pending_updates := s.pending_updates ++ [e] }) []
      else
        let first_update := match e with | .first => true | _ => false
        let r := processUpdate impl s e
        if r.2.1 then
          .ok (some { r.1 with
                        new_root :=
                          some (impl.view r.1.component r.1.props.val) })
            (r.2.2 ++ [.viewCalled, .sched (.render first_update)])
        else
          .ok (some r.1) r.2.2
  | .render first_render =>
    match borrowMut line112RefMutLive with
    | .error e => .panicked e
    | .ok _ =>
      match state with
      | none => .ok none []
      | some s =>
        let r := renderBody s first_render
        .ok r.1 r.2
  | .rendered first_render =>
    match borrowMut line112RefMutLive with
    | .error e => .panicked e
    | .ok _ =>
      match state with
      | none => .ok none []
      | some s =>
        let r := renderedBody impl s first_render
        .ok r.1 r.2
  | .destroy =>
    match borrowMut line112RefMutLive with
    | .error e => .panicked e
    | .ok _ =>
      match state with
      | none => .ok none []
      | some s =>
        let r := destroyBody s
        .ok r.1 r.2

/-- The per-task `Runnable` implementations of
src/yew/src/component/link.rs — `CreateComponent::run` (lines 427-440),
`UpdateComponent::run` (455-505), `RenderComponent::run` (521-545),
`RenderedComponent::run` (561-580) and `DestroyComponent::run` (595-604) —
combined into one dispatcher over the task kind.  Their arm bodies are the
same as lifecycle.rs's, but each runnable takes a single fresh `borrow_mut`
of the un-borrowed state cell, so none of them can hit a
`BorrowMutError`. -/
def LinkRunnables.run [DecidableEq P] (impl : ComponentImpl M P V C)
    (state : Option (ComponentState M P V C)) :
    ComponentTask M P V → Option (ComponentState M P V C) × List (Emit M P V)
  | .create parent next_sibling node_ref placeholder props =>
    match state with
    | none =>
      (some { parent := parent, next_sibling := next_sibling,
              node_ref := node_ref,
              component := impl.create props.val, props := props,
              placeholder := placeholder, last_root := none, new_root := none,
              has_rendered := false, pending_updates := [] }, [.created])
    | some s => (some s, [])
  | .update e =>
    match state with
    | none => (none, [])
    | some s =>
      if s.new_root.isSome then
        (some { s with pending_updates := s.pending_updates ++ [e] }, [])
      else
        let first_update := match e with | .first => true | _ => false
        let r := processUpdate impl s e
        if r.2.1 then
          (some { r.1 with
                    new_root := some (impl.view r.1.component r.1.props.val) },
           r.2.2 ++ [.viewCalled, .sched (.render first_update)])
        else
          (some r.1, r.2.2)
  | .render first_render =>
    match state with
    | none => (none, [])
    | some s => renderBody s first_render
  | .rendered first_render =>
    match state with
    | none => (none, [])
    | some s => renderedBody impl s first_render
  | .destroy =>
    match state with
    | none => (none, [])
    | some s => destroyBody s

namespace VDom

/-- A live text node of the UI surface, identified by a stable id. -/
structure SNode where
  id : Nat
  text : String
deriving DecidableEq, Repr

/-- The parent `Element` of the UI surface: its child nodes in document order,
plus a counter supplying fresh node ids for `document().create_text_node`. -/
structure Dom where
  childNodes : List SNode
  fresh : Nat
deriving DecidableEq, Repr

/-- Whether a node with the given id is attached under the parent. -/
def Dom.containsId (dom : Dom) (id : Nat) : Bool :=
  dom.childNodes.any (fun n => n.id = id)

/-- Text content of the attached node with the given id, if any. -/
def Dom.nodeText (dom : Dom) (id : Nat) : Option String :=
  (dom.childNodes.find? (fun n => n.id = id)).map SNode.text

/-- Insert `n` immediately before the first node with id `s` (helper for
`Dom.insertBefore`); appends when no such node exists. -/
def insertBeforeList (l : List SNode) (n : SNode) (s : Nat) : List SNode :=
  match l with
  | [] => [n]
  | x :: xs => if x.id = s then n :: x :: xs else x :: insertBeforeList xs n s

/-- The surface binding `insert_before(parent, node, sibling_anchor)`; a
`none` anchor is `append_child`. -/
def Dom.insertBefore (dom : Dom) (n : SNode) (sib : Option Nat) : Dom :=
  match sib with
  | none => { dom with childNodes := dom.childNodes ++ [n] }
  | some s => { dom with childNodes := insertBeforeList dom.childNodes n s }

/-- The surface binding `remove(parent, node)`: removes the first node with
the given id. -/
def Dom.removeChild (dom : Dom) (id : Nat) : Dom :=
  { dom with childNodes := dom.childNodes.eraseP (fun n => n.id = id) }

/-- Id of the sibling immediately following the node with id `id` (helper for
`Dom.nextSibling`). -/
def nextSiblingInList : List SNode → Nat → Option Nat
  | [], _ => none
  | x :: xs, id =>
    if x.id = id then (xs.head?).map SNode.id else nextSiblingInList xs id

/-- The surface accessor `node.next_sibling()`. -/
def Dom.nextSibling (dom : Dom) (id : Nat) : Option Nat :=
  nextSiblingInList dom.childNodes id

/-- The surface mutator `node.set_node_value` used when a reused text node's
content changed; a `none` reference mutates nothing. -/
def Dom.setText (dom : Dom) (r : Option Nat) (text : String) : Dom :=
  match r with
  | none => dom
  | some id =>
    { dom with
        childNodes :=
          dom.childNodes.map
            (fun n => if n.id = id then { n with text := text } else n) }

/-- The internal virtual node type of src/src/virtual_dom/internal/vnode.rs,
restricted to the variants exercised by list reconciliation: `VText` (content
plus, once rendered, a reference to its surface node), `VList` (the
`no_siblings` flag and children of src/src/virtual_dom/internal/vlist.rs) and
`VRef` (a held surface node).  `VTag` and `VComp` reconcile their own subtrees
behind the same `VDiff` interface and are orthogonal to the list-level
claims. -/
inductive VNode where
  | vtext (text : String) (reference : Option Nat)
  | vlist (no_siblings : Bool) (children : List VNode)
  | vref (node : SNode)
deriving Repr

mutual

/-- The `VDiff::detach` implementations of src/src/virtual_dom/internal:
`VNode::detach` dispatches; `VRef` removes the held node returning its next
sibling; `VList::detach` drains its children (src/src/virtual_dom/internal/vlist.rs
lines 49-55).  The `VText` case is modelled from the spec, its source file
being absent from the tree: a text node removes its single surface node. -/
def detach : VNode → Dom → Dom × Option Nat
  | .vtext _ r, dom =>
    match r with
    | some id => (dom.removeChild id, dom.nextSibling id)
    | none => (dom, none)
  | .vref n, dom => (dom.removeChild n.id, dom.nextSibling n.id)
  | .vlist _ children, dom => detachChildren children dom none

/-- The drain loop of `VList::detach`: detaches every child in order, keeping
the last child's returned sibling. -/
def detachChildren : List VNode → Dom → Option Nat → Dom × Option Nat
  | [], dom, last_sibling => (dom, last_sibling)
  | c :: cs, dom, _ =>
    let r := detach c dom
    detachChildren cs r.1 r.2

end

/-- Materialization step shared by the fresh branches of text reconciliation:
create a text node, insert it before the sibling returned by the ancestor's
detach when present, otherwise right after `previous_sibling` (before its
next sibling, appending when there is none). -/
def insertFresh (text : String) (dom : Dom) (previous_sibling : Option Nat)
    (sib : Option Nat) : VNode × Dom × Option Nat :=
  let n : SNode := ⟨dom.fresh, text⟩
  let dom1 : Dom := { dom with fresh := dom.fresh + 1 }
  let dom2 :=
    match sib with
    | some s => dom1.insertBefore n (some s)
    | none =>
      match previous_sibling with
      | some p => dom1.insertBefore n (dom1.nextSibling p)
      | none => dom1.insertBefore n none
  (.vtext text (some n.id), dom2, some n.id)

/-- Modelled from the spec: the internal `VText::apply` referenced by
`VList::apply` (`use super::vtext::VText`) whose file
src/src/virtual_dom/internal/vtext.rs is absent from the tree.  Per the spec,
a `Text` node "maps to a single text node"; against a same-kind ancestor the
engine "update[s] the existing text content in place", and against a
different kind it must "detach the ancestor's entire subtree first, then
materialize `self` fresh" at the anchored position. -/
def applyText (text : String) (dom : Dom) (previous_sibling : Option Nat)
    (ancestor : Option VNode) : VNode × Dom × Option Nat :=
  match ancestor with
  | some (.vtext old r) =>
    let dom2 := if text ≠ old then dom.setText r text else dom
    (.vtext text r, dom2, r)
  | some other =>
    let d := detach other dom
    insertFresh text d.1 previous_sibling d.2
  | none => insertFresh text dom previous_sibling none

/-- Ancestor children extraction at the head of `VList::apply`
(src/src/virtual_dom/internal/vlist.rs lines 69-81): the previously rendered
ancestor children; a non-list ancestor is treated as a singleton list, no
ancestor as the empty list. -/
def ancestorRights : Option VNode → List VNode
  | some (.vlist _ cs) => cs
  | some v => [v]
  | none => []

/-- The placeholder path of `VList::apply`
(src/src/virtual_dom/internal/vlist.rs lines 83-90): when the children
collection is empty and the list has siblings, a zero-length `VText`
placeholder is pushed as the only child; the reconciliation loop then runs
on that single placeholder child (unrolled here for the singleton list):
the placeholder is applied against the first ancestor child and the
remaining ancestor children are detached. -/
def applyEmptyList (no_siblings : Bool) (rights : List VNode) (dom : Dom)
    (prev : Option Nat) : VNode × Dom × Option Nat :=
  match rights with
  | [] =>
    let r := applyText "" dom prev none
    (.vlist no_siblings [r.1], r.2.1, r.2.2)
  | rh :: rt =>
    let r := applyText "" dom prev (some rh)
    let d2 := detachChildren rt r.2.1 none
    (.vlist no_siblings [r.1], d2.1, r.2.2)

mutual

/-- The `VDiff::apply` dispatch of src/src/virtual_dom/internal/vnode.rs for
the embedded variants.  The `VRef` branch (lines 70-84 there) detaches the
ancestor and inserts the held node before the returned sibling, appending
otherwise; `previous_sibling` is unused by that branch.  The `VList` branch
is `VList::apply` (src/src/virtual_dom/internal/vlist.rs lines 57-120): each
ancestor child is handed to the child apply as its ancestor (the source
wraps it in `TypedNode::VRef`, which the typed-to-internal conversion
unwraps back to the node). -/
def applyNode : VNode → Dom → Option Nat → Option VNode → VNode × Dom × Option Nat
  | .vtext text _, dom, prev, ancestor => applyText text dom prev ancestor
  | .vref n, dom, _, ancestor =>
    let d := match ancestor with
             | some a => detach a dom
             | none => (dom, none)
    (.vref n, d.1.insertBefore n d.2, some n.id)
  | .vlist no_siblings children, dom, prev, ancestor =>
    if children.isEmpty && !no_siblings then
      applyEmptyList no_siblings (ancestorRights ancestor) dom prev
    else
      let r := applyChildren children (ancestorRights ancestor) dom prev
      (.vlist no_siblings r.1, r.2.1, r.2.2)

/-- The positional reconciliation loop of `VList::apply`
(src/src/virtual_dom/internal/vlist.rs lines 92-119): pairs new children with
ancestor children in order, threading `previous_sibling` through every apply;
a new child without counterpart is applied with no ancestor; a leftover
ancestor child is detached. -/
def applyChildren : List VNode → List VNode → Dom → Option Nat →
    List VNode × Dom × Option Nat
  | [], [], dom, prev => ([], dom, prev)
  | [], r :: rs, dom, prev =>
    let d := detach r dom
    applyChildren [] rs d.1 prev
  | l :: ls, [], dom, prev =>
    let a := applyNode l dom prev none
    let rest := applyChildren ls [] a.2.1 a.2.2
    (a.1 :: rest.1, rest.2)
  | l :: ls, r :: rs, dom, prev =>
    let a := applyNode l dom prev (some r)
    let rest := applyChildren ls rs a.2.1 a.2.2
    (a.1 :: rest.1, rest.2)

end

/-- Anchor-relative successor: the next sibling of the `previous_sibling`
anchor, `none` when the anchor is absent or last. -/
def Dom.anchorNext (dom : Dom) (prev : Option Nat) : Option Nat :=
  match prev with
  | none => none
  | some p => dom.nextSibling p

/-- Well-formedness of the surface: every attached node id is below the
fresh-id counter, so newly created nodes never collide. -/
def Dom.wfIds (dom : Dom) : Bool :=
  dom.childNodes.all (fun n => n.id < dom.fresh)

mutual

/-- Surface node ids referenced by a virtual tree. -/
def VNode.refs : VNode → List Nat
  | .vtext _ r => r.toList
  | .vref n => [n.id]
  | .vlist _ children => refsList children

/-- Surface node ids referenced by a list of virtual trees. -/
def refsList : List VNode → List Nat
  | [] => []
  | c :: cs => c.refs ++ refsList cs

end

mutual

/-- A previously applied ("ancestor") tree is rendered in the surface: every
text node holds a reference to an attached node carrying its content, and
every held `VRef` node is attached. -/
def renderedIn (dom : Dom) : VNode → Bool
  | .vtext t r =>
    match r with
    | some id => dom.nodeText id == some t
    | none => false
  | .vref n => dom.containsId n.id
  | .vlist _ children => renderedInList dom children

/-- Every tree of the list is rendered in the surface. -/
def renderedInList (dom : Dom) : List VNode → Bool
  | [] => true
  | c :: cs => renderedIn dom c && renderedInList dom cs

end

/-- Validity of an optional ancestor argument to `applyNode`: the previously
applied tree is rendered in the surface and references each surface node at
most once. -/
def validAncestor (dom : Dom) : Option VNode → Prop
  | none => True
  | some a => renderedIn dom a = true ∧ a.refs.Nodup

/-- Modelled from the spec (refinement target for `applyChildren`): the
pairwise phase of list reconciliation, reconciling new child `i` against
ancestor child `i` while threading the `previous_sibling` anchor. -/
def specPairwise : List (VNode × VNode) → Dom → Option Nat →
    List VNode × Dom × Option Nat
  | [], dom, prev => ([], dom, prev)
  | lr :: rest, dom, prev =>
    let a := applyNode lr.1 dom prev (some lr.2)
    let r2 := specPairwise rest a.2.1 a.2.2
    (a.1 :: r2.1, r2.2)

/-- Modelled from the spec (refinement target for `applyChildren`): trailing
new children with no ancestor counterpart are freshly materialized, threading
`previous_sibling` forward. -/
def specApplyNew : List VNode → Dom → Option Nat →
    List VNode × Dom × Option Nat
  | [], dom, prev => ([], dom, prev)
  | l :: ls, dom, prev =>
    let a := applyNode l dom prev none
    let rest := specApplyNew ls a.2.1 a.2.2
    (a.1 :: rest.1, rest.2)

/-- Modelled from the spec (refinement target for `applyChildren`): trailing
ancestor children with no corresponding new child are detached. -/
def specDetachExtra (rights : List VNode) (dom : Dom) : Dom :=
  rights.foldl (fun dm r => (detach r dm).1) dom

/-- Modelled from the spec: positional ("index-based") list reconciliation as
§4.1 words it — align the two child sequences positionally, detach the
trailing ancestor children, freshly materialize the trailing new children. -/
def specListReconcile (lefts rights : List VNode) (dom : Dom)
    (prev : Option Nat) : List VNode × Dom × Option Nat :=
  let s1 := specPairwise (lefts.zip rights) dom prev
  if rights.length ≤ lefts.length then
    let s2 := specApplyNew (lefts.drop rights.length) s1.2.1 s1.2.2
    (s1.1 ++ s2.1, s2.2)
  else
    (s1.1, specDetachExtra (rights.drop lefts.length) s1.2.1, s1.2.2)

end VDom

/-- Discriminator for the `Create` variant of `ComponentTask`. -/
def ComponentTask.isCreate : ComponentTask M P V → Bool
  | .create _ _ _ _ _ => true
  | _ => false

/-- Specification-style reading of batch processing: run `update` on each
message in list order, threading the component model through, and collect
every message's individual should-render result. -/
def batchResults (impl : ComponentImpl M P V C) (c : C) (p : P) :
    List M → C × List Bool
  | [] => (c, [])
  | m :: ms =>
    let r := impl.update c p m
    let rest := batchResults impl r.1 p ms
    (rest.1, r.2 :: rest.2)

/-- The virtual component node `VComp` of src/yew/src/virtual_dom/vcomp.rs.
`type_id` models `TypeId::of::<COMP>`; `context` models the mounted
component's handle (`Option<Box<dyn ContextHandle>>`), present exactly while
the VComp is mounted; `props` models the boxed `Mountable`
(`Option<Box<dyn Mountable>>`), consumed when the component is mounted or
reused; `node_ref` is the `NodeRef`'s current surface node. -/
structure VComp (P : Type) where
  type_id : Nat
  context : Option Nat
  props : Option P
  node_ref : Option Nat
  key : Option Nat
deriving DecidableEq, Repr

/-- Observable component-instance operations performed by VComp
reconciliation: `mount` (`PropsWrapper::mount`, ending in `mount_in_place`),
`reuse` (`PropsWrapper::reuse`, forwarding a `ComponentUpdate::Properties` to
the existing context) and `destroyInst` (`ContextHandle::destroy`, the full
destroy sequence of the nested component). -/
inductive CompOp (P : Type) where
  | mount (props : P) (ctx : Nat)
  | reuse (props : P) (ctx : Nat) (node_ref : Option Nat) (next_sibling : Option Nat)
  | destroyInst (ctx : Nat)
deriving DecidableEq, Repr

/-- The `Clone` implementation for `VComp` (vcomp.rs lines 29-43): cloning a
mounted component (`context.is_some()`) panics; otherwise the clone copies
the un-consumed props and is itself unmounted. -/
def VComp.clone (self : VComp P) : Except String (VComp P) :=
  if self.context.isSome then
    .error "Mounted components are not allowed to be cloned!"
  else
    .ok { type_id := self.type_id, context := none, props := self.props,
          node_ref := self.node_ref, key := self.key }

/-- The `VDiff::detach` implementation for `VComp` (vcomp.rs lines 196-198):
takes the context — panicking with "VComp is not mounted" when absent — and
runs the nested component's destroy sequence. -/
def VComp.detach (self : VComp P) :
    Except String (VComp P × List (CompOp P)) :=
  match self.context with
  | none => .error "VComp is not mounted"
  | some ctx => .ok ({ self with context := none }, [.destroyInst ctx])

/-- Ancestor node shapes relevant to `VComp::apply`, from the `VNode` enum of
src/yew/src/virtual_dom: a component node, or any non-component node (whose
detach only touches the surface and performs no component operation). -/
inductive HNode (P : Type) where
  | vcomp (c : VComp P)
  | other
deriving DecidableEq, Repr

/-- Detach dispatch for ancestors of a `VComp` (`ancestor.detach(parent)` in
vcomp.rs line 221): a component ancestor destroys its instance; others only
touch the surface. -/
def HNode.detach : HNode P → Except String (List (CompOp P))
  | .vcomp c => (VComp.detach c).map (fun r => r.2)
  | .other => .ok []

/-- The `VDiff::apply` implementation for `VComp` (vcomp.rs lines 200-235).
Takes the boxed props, panicking with "VComp has already been mounted" when
already consumed.  When the ancestor is a `VComp` with equal `type_id` and
equal `key`, the existing instance is reused: the node ref is taken over, the
new props are forwarded to the existing context as a Properties update, the
context is taken from the ancestor, and the ancestor's node ref is returned.
Otherwise the ancestor is detached and a fresh mount occurs behind a new
zero-length placeholder text node; `fresh` supplies the new placeholder node
id and `fresh + 1` the new context id. -/
def VComp.apply (self : VComp P) (next_sibling : Option Nat)
    (ancestor : Option (HNode P)) (fresh : Nat) :
    Except String (VComp P × Option Nat × List (CompOp P)) :=
  match self.props with
  | none => .error "VComp has already been mounted"
  | some mountable =>
    let mountFresh : List (CompOp P) →
        VComp P × Option Nat × List (CompOp P) := fun ops =>
      ({ self with
           props := none,
           node_ref := some fresh,
           context := some (fresh + 1) },
       some fresh, ops ++ [.mount mountable (fresh + 1)])
    match ancestor with
    | some (.vcomp anc) =>
      if self.type_id = anc.type_id ∧ self.key = anc.key then
        match anc.context with
        | none => .error "VComp is not mounted"
        | some ctx =>
          .ok ({ self with
                   props := none,
                   node_ref := anc.node_ref,
                   context := some ctx },
               anc.node_ref,
               [.reuse mountable ctx anc.node_ref next_sibling])
      else
        match HNode.detach (.vcomp anc) with
        | .error e => .error e
        | .ok ops => .ok (mountFresh ops)
    | some .other =>
      match HNode.detach .other with
      | .error e => .error e
      | .ok ops => .ok (mountFresh ops)
    | none => .ok (mountFresh [])

/-- The type-erased link `AnyLink` of src/yew/src/component/link.rs: the
linked component's `TypeId`, an optional parent link (of erased type `π`),
and the `Rc<dyn Any>`-boxed shared state slot, whose dynamic type tag
`state_ty` is the `TypeId` of the `Shared<Option<ComponentState<COMP>>>`
it boxes. `σ` stands for the erased state payload. -/
structure AnyLink (π σ : Type) where
  type_id : Nat
  parent : Option π
  state_ty : Nat
  state : σ
deriving DecidableEq, Repr

/-- The typed link `Link<COMP>` of src/yew/src/component/link.rs: `comp` is
the `TypeId` of the component type parameter, `state` the shared state
slot. -/
structure Link (π σ : Type) where
  comp : Nat
  parent : Option π
  state : σ
deriving DecidableEq, Repr

/-- The `From<Link<COMP>> for AnyLink` conversion (link.rs lines 39-47):
`type_id` is `TypeId::of::<COMP>`, and the boxed state's dynamic type is
`Shared<Option<ComponentState<COMP>>>` — determined by the same `COMP`. -/
def Link.toAny (l : Link π σ) : AnyLink π σ :=
  { type_id := l.comp, parent := l.parent, state_ty := l.comp, state := l.state }

/-- The downcast `AnyLink::downcast::<COMP>` (link.rs lines 61-71):
`downcast_ref::<Shared<Option<ComponentState<COMP>>>>` succeeds exactly when
the requested component type matches the boxed state's dynamic type, and the
`.expect("unexpected component type")` panics otherwise. -/
def AnyLink.downcast (target : Nat) (a : AnyLink π σ) :
    Except String (Link π σ) :=
  if a.state_ty = target then
    .ok { comp := target, parent := a.parent, state := a.state }
  else
    .error "unexpected component type"

/-- A concrete component implementation over naturals, used to instantiate
the generic lifecycle theorems on closed inputs. -/
def natImpl : ComponentImpl Nat Nat Nat Nat :=
  { create := fun p => p,
    update := fun c _ m => (c + m, decide (m ≠ 0)),
    changed := fun c _ np => (c, decide (np ≠ 0)),
    view := fun c p => c + p,
    rendered := fun c _ _ => c + 100,
    destroy := fun c _ => c }

/-- A concrete component state with a render in flight (`new_root` is `Some`)
and a non-empty pending-update queue. -/
def inFlightState : ComponentState Nat Nat Nat Nat :=
  { parent := 0, next_sibling := 1, node_ref := 2, component := 10,
    props := ⟨0, 5⟩, placeholder := none, last_root := some 7,
    new_root := some 8, has_rendered := true,
    pending_updates := [.message 1, .message 2] }

/-- A concrete quiescent component state (no render in flight, empty
queue). -/
def idleState : ComponentState Nat Nat Nat Nat :=
  { parent := 0, next_sibling := 1, node_ref := 2, component := 10,
    props := ⟨0, 5⟩, placeholder := none, last_root := some 7,
    new_root := none, has_rendered := true, pending_updates := [] }

/-- Render-in-flight protocol as implemented by the borrow-correct runnables
of src/yew/src/component/link.rs: while `new_root` is `Some`, an Update task
invokes neither `update` nor `view` (the emission trace is empty) and only
appends the task to `pending_updates`; and a Rendered task whose guard
passes replays the queue as Update tasks in arrival order, emitted strictly
after the `rendered` callback emission. -/
theorem link_update_queued_replayed_after_rendered {M P V C : Type}
    [DecidableEq P] (impl : ComponentImpl M P V C)
    (s : ComponentState M P V C) (e : UpdateTask M P)
    (h : s.new_root.isSome = true) :
    LinkRunnables.run impl (some s) (.update e) =
      (some { s with pending_updates := s.pending_updates ++ [e] }, []) ∧
    ∀ (s2 : ComponentState M P V C) (first : Bool),
      (first || s2.has_rendered) = true →
      LinkRunnables.run impl (some s2) (.rendered first) =
        (some { s2 with
                  component := impl.rendered s2.component s2.props.val first,
                  has_rendered := true,
                  pending_updates := [] },
         .renderedCalled first ::
           (if s2.pending_updates.isEmpty then []
            else [.schedBatch (s2.pending_updates.map .update)])) := by
  constructor
  · simp [LinkRunnables.run, h]
  · intro s2 first hg
    cases first with
    | true => simp [LinkRunnables.run, renderedBody]
    | false =>
      simp only [Bool.false_or] at hg
      simp [LinkRunnables.run, renderedBody, hg]

/-- C1 (code bug in src/yew/src/component/lifecycle.rs): the exclusion and
queueing half of the claim is faithful to the source — on the concrete
in-flight state an Update task invokes nothing and is appended to
`pending_updates` — but the in-flight render can never reach its `rendered`
callback: the Render and Rendered arms re-borrow `self.state` (lines 127 and
146) while the line-112 `RefMut` is live and panic with `BorrowMutError`, so
the queued updates are never replayed. -/
theorem render_in_flight_replay_never_runs :
    ComponentRunnable.run natImpl (some inFlightState)
        (.update (.message 3)) =
      .ok (some { inFlightState with
                    pending_updates :=
                      inFlightState.pending_updates ++ [.message 3] }) [] ∧
    ComponentRunnable.run natImpl (some inFlightState) (.render false) =
      .panicked "already mutably borrowed: BorrowMutError" ∧
    ComponentRunnable.run natImpl (some inFlightState) (.rendered false) =
      .panicked "already mutably borrowed: BorrowMutError" :=
  ⟨rfl, rfl, rfl⟩

/-- Pending-batch draining as implemented by the borrow-correct
`RenderedComponent::run` of src/yew/src/component/link.rs: when the rendered
callback completes (guard passed) with a non-empty `pending_updates` queue,
every queued update is drained and re-submitted as one atomic batch in
arrival order, and the queue is left empty. -/
theorem link_rendered_drains_pending_batch {M P V C : Type} [DecidableEq P]
    (impl : ComponentImpl M P V C) (s : ComponentState M P V C) (first : Bool)
    (hg : (first || s.has_rendered) = true)
    (hne : s.pending_updates ≠ []) :
    LinkRunnables.run impl (some s) (.rendered first) =
      (some { s with
                component := impl.rendered s.component s.props.val first,
                has_rendered := true,
                pending_updates := [] },
       [.renderedCalled first,
        .schedBatch (s.pending_updates.map .update)]) := by
  have hcons : s.pending_updates.isEmpty = false := by
    cases hp : s.pending_updates with
    | nil => exact absurd hp hne
    | cons a l => simp
  cases first with
  | true => simp [LinkRunnables.run, renderedBody, hcons]
  | false =>
    simp only [Bool.false_or] at hg
    simp [LinkRunnables.run, renderedBody, hg, hcons]

/-- C7 (code bug in src/yew/src/component/lifecycle.rs): on every state slot
and first-render flag, the Rendered arm panics with `BorrowMutError` at the
line-146 re-borrow of `self.state` under the live line-112 `RefMut`, before
the `rendered` callback is invoked or the pending queue drained; in
particular at the concrete state holding a two-message queue. -/
theorem rendered_arm_panics_before_drain :
    (∀ (M P V C : Type) [DecidableEq P] (impl : ComponentImpl M P V C)
       (state : Option (ComponentState M P V C)) (first : Bool),
       ComponentRunnable.run impl state (.rendered first) =
         .panicked "already mutably borrowed: BorrowMutError") ∧
    ComponentRunnable.run natImpl (some inFlightState) (.rendered false) =
      .panicked "already mutably borrowed: BorrowMutError" := by
  constructor
  · intro M P V C inst impl state first
    rfl
  · rfl

/-- Stale-task absorption as implemented by the borrow-correct runnables of
src/yew/src/component/link.rs: every non-Create task run on an emptied state
slot performs no callback, no state mutation and no surface mutation — the
slot stays empty and the emission trace is empty — and Destroy itself
empties the slot. -/
theorem link_stale_task_is_noop {M P V C : Type} [DecidableEq P]
    (impl : ComponentImpl M P V C) (t : ComponentTask M P V)
    (h : t.isCreate = false) :
    LinkRunnables.run impl none t = (none, []) ∧
    ∀ s, (LinkRunnables.run impl (some s) ComponentTask.destroy).1 = none := by
  constructor
  · cases t <;> simp_all [LinkRunnables.run, ComponentTask.isCreate]
  · intro s
    simp [LinkRunnables.run, destroyBody]

/-- C4 (code bug in src/yew/src/component/lifecycle.rs): on the emptied
state slot only the stale Update task is silently absorbed (its arm reads
the line-112 `current_state`); stale Render, Rendered and Destroy tasks
panic with `BorrowMutError` at the re-borrows of `self.state` (lines 127,
146, 213) before their `Some`-guard can absorb them — against the claim's
"performs nothing and never panics" for three of the four task kinds. -/
theorem stale_tasks_panic_on_reborrow :
    ComponentRunnable.run natImpl none (.update (.message 3)) = .ok none [] ∧
    ComponentRunnable.run natImpl none (.render false) =
      .panicked "already mutably borrowed: BorrowMutError" ∧
    ComponentRunnable.run natImpl none (.rendered false) =
      .panicked "already mutably borrowed: BorrowMutError" ∧
    ComponentRunnable.run natImpl none ComponentTask.destroy =
      .panicked "already mutably borrowed: BorrowMutError" :=
  ⟨rfl, rfl, rfl, rfl⟩

/-- C6: a Properties update on a live, quiescent component replaces the
stored properties handle wholesale in every case; `view` runs (and a Render
task is scheduled) exactly when the new value is unequal to the current one
AND the component's `changed` returned true; and on value-equal properties no
callback at all is invoked. -/
theorem properties_update_render_gating {M P V C : Type} [DecidableEq P]
    (impl : ComponentImpl M P V C) (s : ComponentState M P V C)
    (p : RcProps P) (nr ns : Nat) (h : s.new_root = none) :
    ∃ s3 evs,
      ComponentRunnable.run impl (some s) (.update (.properties p nr ns)) =
        .ok (some s3) evs ∧
      s3.props = p ∧ s3.node_ref = nr ∧ s3.next_sibling = ns ∧
      ((Emit.viewCalled ∈ evs) ↔
        (s.props.val ≠ p.val ∧
          (impl.changed s.component s.props.val p.val).2 = true)) ∧
      (s.props.val = p.val → evs = []) := by
  have hn : s.new_root.isSome = false := by simp [h]
  by_cases hneq : s.props.val = p.val
  · refine ⟨{ s with node_ref := nr, next_sibling := ns, props := p }, [],
      ?_, rfl, rfl, rfl, ?_, ?_⟩
    · simp [ComponentRunnable.run, processUpdate, hn, hneq]
    · simp [hneq]
    · intro _
      rfl
  · by_cases hch : (impl.changed s.component s.props.val p.val).2 = true
    · refine ⟨{ s with
          node_ref := nr, next_sibling := ns,
          component := (impl.changed s.component s.props.val p.val).1,
          props := p,
          new_root := some (impl.view
            (impl.changed s.component s.props.val p.val).1 p.val) },
        [.changedCalled p.val, .viewCalled, .sched (.render false)],
        ?_, rfl, rfl, rfl, ?_, ?_⟩
      · simp [ComponentRunnable.run, processUpdate, hn, hneq, hch]
      · simp [hneq, hch]
      · intro hx
        exact absurd hx hneq
    · refine ⟨{ s with
          node_ref := nr, next_sibling := ns,
          component := (impl.changed s.component s.props.val p.val).1,
          props := p },
        [.changedCalled p.val],
        ?_, rfl, rfl, rfl, ?_, ?_⟩
      · simp [ComponentRunnable.run, processUpdate, hn, hneq, hch]
      · simp [hneq, hch]
      · intro hx
        exact absurd hx hneq

/-- Closed instance of C6: equal-valued properties with a new pointer cause
no callback yet replace the stored handle (the theorem applied at the
concrete idle state and props ⟨1, 5⟩ whose value equals the stored ⟨0, 5⟩). -/
theorem properties_update_render_gating_witness :
    idleState.new_root = none ∧
    ∃ s3 evs,
      ComponentRunnable.run natImpl (some idleState)
          (.update (.properties ⟨1, 5⟩ 8 9)) =
        .ok (some s3) evs ∧
      s3.props = ⟨1, 5⟩ ∧ s3.node_ref = 8 ∧ s3.next_sibling = 9 ∧
      ((Emit.viewCalled ∈ evs) ↔
        (idleState.props.val ≠ (RcProps.mk 1 5).val ∧
          (natImpl.changed idleState.component idleState.props.val
            (RcProps.mk 1 5).val).2 = true)) ∧
      (idleState.props.val = (RcProps.mk 1 5).val → evs = []) :=
  ⟨rfl, properties_update_render_gating natImpl idleState ⟨1, 5⟩ 8 9 rfl⟩

/-- Fold characterization of `MessageBatch` processing: the source's
`fold(false, |acc, msg| update(msg) || acc)` equals the specification
reading — thread the component through per-message updates and OR together
the individual should-render results. -/
theorem foldl_batch_eq_batchResults {M P V C : Type}
    (impl : ComponentImpl M P V C) (p : P) :
    ∀ (msgs : List M) (c : C) (b : Bool),
      msgs.foldl (fun acc msg =>
        let r := impl.update acc.1 p msg
        (r.1, r.2 || acc.2)) (c, b) =
      ((batchResults impl c p msgs).1,
       ((batchResults impl c p msgs).2.any id || b)) := by
  intro msgs
  induction msgs with
  | nil => intro c b; simp [batchResults]
  | cons m ms ih =>
    intro c b
    simp only [List.foldl_cons, batchResults, List.any_cons, id]
    rw [ih]
    congr 1
    cases (impl.update c p m).2 <;> cases b <;>
      cases ((batchResults impl (impl.update c p m).1 p ms).2.any id) <;> rfl

/-- C2: a MessageBatch of `n` messages on a live, quiescent component invokes
`update` exactly once per message in list order (one `updateCalled` emission
per message, even after a true result), combines the per-message
should-render results by logical OR, and is followed by exactly one
view/render cycle when some message returned true and by none when all
returned false. -/
theorem message_batch_coalescing {M P V C : Type} [DecidableEq P]
    (impl : ComponentImpl M P V C) (s : ComponentState M P V C)
    (msgs : List M) (h : s.new_root = none) :
    ComponentRunnable.run impl (some s) (.update (.messageBatch msgs)) =
      .ok (some (if (batchResults impl s.component s.props.val msgs).2.any id then
               { s with
                   component := (batchResults impl s.component s.props.val msgs).1,
                   new_root := some (impl.view
                     (batchResults impl s.component s.props.val msgs).1
                     s.props.val) }
             else
               { s with
                   component := (batchResults impl s.component s.props.val msgs).1 }))
        (msgs.map .updateCalled ++
         (if (batchResults impl s.component s.props.val msgs).2.any id then
            [.viewCalled, .sched (.render false)]
          else [])) := by
  have hn : s.new_root.isSome = false := by simp [h]
  have hb := foldl_batch_eq_batchResults impl s.props.val msgs s.component false
  simp only [Bool.or_false] at hb
  by_cases hany : (batchResults impl s.component s.props.val msgs).2.any id = true
  · simp [ComponentRunnable.run, processUpdate, runMessageBatch, hn, hb, hany]
  · simp only [Bool.not_eq_true] at hany
    simp [ComponentRunnable.run, processUpdate, runMessageBatch, hn, hb, hany]

/-- Closed instance of C2: a batch of three messages of which only the
second signals re-render yields three update emissions in order and exactly
one view/render cycle. -/
theorem message_batch_coalescing_witness :
    idleState.new_root = none ∧
    ComponentRunnable.run natImpl (some idleState)
        (.update (.messageBatch [0, 4, 0])) =
      .ok (some { idleState with
                component := 14,
                new_root := some (natImpl.view 14 idleState.props.val) })
        [.updateCalled 0, .updateCalled 4, .updateCalled 0,
         .viewCalled, .sched (.render false)] := by
  refine ⟨by decide, ?_⟩
  have h := message_batch_coalescing natImpl idleState [0, 4, 0] rfl
  simpa using h

/-- C9: downcasting the type-erased form of a typed link succeeds — yielding
a typed link sharing the same state slot and parent — exactly when the
requested component type matches the stored one, and panics with
"unexpected component type" on any other component type; no wrong-typed link
and no recoverable error value is ever produced. -/
theorem downcast_raises_iff_type_mismatch {π σ : Type} (l : Link π σ)
    (target : Nat) :
    (target = l.comp → AnyLink.downcast target l.toAny = .ok l) ∧
    (target ≠ l.comp →
      AnyLink.downcast target l.toAny = .error "unexpected component type") := by
  constructor
  · intro h
    subst h
    simp [AnyLink.downcast, Link.toAny]
  · intro h
    have h2 : ¬ (l.comp = target) := fun hh => h hh.symm
    simp [AnyLink.downcast, Link.toAny, h2]

/-- Closed instance of C9 on a concrete link: downcast to the stored type
succeeds with the same state, to another type panics. -/
theorem downcast_raises_iff_type_mismatch_witness :
    AnyLink.downcast 3 (Link.toAny (π := Nat) (σ := Nat) ⟨3, some 9, 42⟩) =
      .ok ⟨3, some 9, 42⟩ ∧
    AnyLink.downcast 4 (Link.toAny (π := Nat) (σ := Nat) ⟨3, some 9, 42⟩) =
      .error "unexpected component type" := by
  constructor
  · exact (downcast_raises_iff_type_mismatch ⟨3, some 9, 42⟩ 3).1 rfl
  · exact (downcast_raises_iff_type_mismatch ⟨3, some 9, 42⟩ 4).2 (by decide)

/-- C5 as frozen is refuted by the key check: a VComp applied against a
mounted ancestor VComp of the same component type but a different key is NOT
reused — the ancestor instance is destroyed and a fresh mount occurs, and
the returned position is a new placeholder, not the ancestor's node
reference. -/
theorem vcomp_reuse_counterexample :
    VComp.apply (P := Nat) ⟨0, none, some 7, none, none⟩ none
        (some (.vcomp ⟨0, some 5, none, some 9, some 1⟩)) 100 =
      .ok (⟨0, some 101, none, some 100, none⟩, some 100,
           [.destroyInst 5, .mount 7 101]) ∧
    (some 100 : Option Nat) ≠ some 9 := by
  constructor
  · rfl
  · decide

/-- C5 (amended: reuse requires the key to match as well): applying a VComp
against a mounted ancestor VComp with the same `type_id` AND equal `key`
reuses the existing instance — the new properties are forwarded to its
context as a Properties update, no destroy and no mount occurs — and the
returned surface position is the ancestor's existing node reference. -/
theorem vcomp_reuse_on_matching_identity {P : Type} (self anc : VComp P)
    (p : P) (ctx : Nat) (ns : Option Nat) (fresh : Nat)
    (hp : self.props = some p) (hty : self.type_id = anc.type_id)
    (hkey : self.key = anc.key) (hctx : anc.context = some ctx) :
    self.apply ns (some (.vcomp anc)) fresh =
      .ok ({ self with
               props := none,
               node_ref := anc.node_ref,
               context := some ctx },
           anc.node_ref,
           [.reuse p ctx anc.node_ref ns]) := by
  simp [VComp.apply, hp, hty, hkey, hctx]

/-- Closed instance of the amended C5: matching type and key forward the
props to the mounted ancestor's context and return its node reference. -/
theorem vcomp_reuse_on_matching_identity_witness :
    VComp.apply (P := Nat) ⟨0, none, some 7, none, some 1⟩ (some 4)
        (some (.vcomp ⟨0, some 5, none, some 9, some 1⟩)) 100 =
      .ok (⟨0, some 5, none, some 9, some 1⟩, some 9,
           [.reuse 7 5 (some 9) (some 4)]) := by
  have h := vcomp_reuse_on_matching_identity (P := Nat)
    ⟨0, none, some 7, none, some 1⟩ ⟨0, some 5, none, some 9, some 1⟩
    7 5 (some 4) 100 rfl rfl rfl rfl
  simpa using h

/-- C10: a VComp transitions at most once from unmounted to mounted, and
every misuse panics rather than duplicating or dropping an instance: apply
on a VComp whose props were already consumed panics
"VComp has already been mounted"; cloning a currently mounted VComp panics
"Mounted components are not allowed to be cloned!"; detaching a never-mounted
VComp panics "VComp is not mounted"; and every successful apply consumes the
props and leaves the VComp mounted. -/
theorem vcomp_single_mount {P : Type} (v : VComp P) (ns : Option Nat)
    (anc : Option (HNode P)) (fresh : Nat) :
    (v.props = none → v.apply ns anc fresh = .error "VComp has already been mounted") ∧
    (v.context.isSome = true →
      v.clone = .error "Mounted components are not allowed to be cloned!") ∧
    (v.context = none → v.detach = .error "VComp is not mounted") ∧
    (∀ v2 ret ops, v.apply ns anc fresh = .ok (v2, ret, ops) →
      v2.props = none ∧ v2.context.isSome = true) := by
  refine ⟨?_, ?_, ?_, ?_⟩
  · intro h
    simp [VComp.apply, h]
  · intro h
    simp [VComp.clone, h]
  · intro h
    simp [VComp.detach, h]
  · intro v2 ret ops h
    cases hp : v.props with
    | none => simp [VComp.apply, hp] at h
    | some mountable =>
      cases anc with
      | none =>
        simp [VComp.apply, hp] at h
        obtain ⟨h1, -⟩ := h
        simp [← h1]
      | some a =>
        cases a with
        | other =>
          simp [VComp.apply, hp, HNode.detach] at h
          obtain ⟨h1, -⟩ := h
          simp [← h1]
        | vcomp ac =>
          by_cases hid : v.type_id = ac.type_id ∧ v.key = ac.key
          · cases hctx : ac.context with
            | none => simp [VComp.apply, hp, hid, hctx] at h
            | some ctx =>
              simp [VComp.apply, hp, hid, hctx] at h
              obtain ⟨h1, -⟩ := h
              simp [← h1]
          · cases hctx : ac.context with
            | none =>
              simp [VComp.apply, hp, hid, hctx, HNode.detach, VComp.detach,
                Except.map] at h
            | some ctx =>
              simp [VComp.apply, hp, hid, hctx, HNode.detach, VComp.detach,
                Except.map] at h
              obtain ⟨h1, -⟩ := h
              simp [← h1]

/-- Closed instance of C10: the three misuse panics and one successful mount
on concrete VComps. -/
theorem vcomp_single_mount_witness :
    VComp.apply (P := Nat) ⟨0, some 5, none, some 9, none⟩ none none 100 =
      .error "VComp has already been mounted" ∧
    VComp.clone (P := Nat) ⟨0, some 5, none, some 9, none⟩ =
      .error "Mounted components are not allowed to be cloned!" ∧
    VComp.detach (P := Nat) ⟨0, none, some 7, none, none⟩ =
      .error "VComp is not mounted" ∧
    ∀ v2 ret ops,
      VComp.apply (P := Nat) ⟨0, none, some 7, none, none⟩ none none 100 =
        .ok (v2, ret, ops) → v2.props = none ∧ v2.context.isSome = true := by
  refine ⟨?_, ?_, ?_, ?_⟩
  · exact (vcomp_single_mount ⟨0, some 5, none, some 9, none⟩ none none 100).1 rfl
  · exact (vcomp_single_mount (P := Nat) ⟨0, some 5, none, some 9, none⟩ none
      none 100).2.1 rfl
  · exact (vcomp_single_mount (P := Nat) ⟨0, none, some 7, none, none⟩ none
      none 100).2.2.1 rfl
  · exact (vcomp_single_mount ⟨0, none, some 7, none, none⟩ none none 100).2.2.2

namespace VDom

theorem find?_insertBeforeList (n : SNode) (s : Nat) :
    ∀ l : List SNode, (∀ m ∈ l, m.id ≠ n.id) →
      (insertBeforeList l n s).find? (fun m => m.id = n.id) = some n
  | [], _ => by simp [insertBeforeList]
  | x :: xs, h => by
    by_cases hx : x.id = s
    · simp [insertBeforeList, hx]
    · have hd : decide (x.id = n.id) = false := decide_eq_false (h x (by simp))
      simp only [insertBeforeList, if_neg hx, List.find?_cons, hd]
      exact find?_insertBeforeList n s xs (fun m hm => h m (by simp [hm]))

theorem find?_append_last (n : SNode) :
    ∀ l : List SNode, (∀ m ∈ l, m.id ≠ n.id) →
      (l ++ [n]).find? (fun m => m.id = n.id) = some n
  | [], _ => by simp
  | x :: xs, h => by
    have hd : decide (x.id = n.id) = false := decide_eq_false (h x (by simp))
    simp only [List.cons_append, List.find?_cons, hd]
    exact find?_append_last n xs (fun m hm => h m (by simp [hm]))

theorem nodeText_insertBefore_self (dom : Dom) (n : SNode) (sib : Option Nat)
    (h : ∀ m ∈ dom.childNodes, m.id ≠ n.id) :
    (dom.insertBefore n sib).nodeText n.id = some n.text := by
  cases sib with
  | none =>
    simp [Dom.insertBefore, Dom.nodeText, find?_append_last n dom.childNodes h]
  | some s =>
    simp [Dom.insertBefore, Dom.nodeText,
      find?_insertBeforeList n s dom.childNodes h]

theorem find?_eraseP_ne (id j : Nat) (h : id ≠ j) :
    ∀ l : List SNode,
      (l.eraseP (fun n => n.id = j)).find? (fun n => n.id = id) =
        l.find? (fun n => n.id = id)
  | [] => by simp
  | x :: xs => by
    by_cases hx : x.id = j
    · have hni : ¬ (x.id = id) := by
        intro hc
        apply h
        rw [← hc]
        exact hx
      simp only [List.eraseP_cons, decide_eq_true hx, cond_true,
        List.find?_cons, decide_eq_false hni]
    · simp only [List.eraseP_cons, decide_eq_false hx, cond_false,
        List.find?_cons]
      by_cases hxi : x.id = id
      · simp only [decide_eq_true hxi]
      · simp only [decide_eq_false hxi]
        exact find?_eraseP_ne id j h xs

theorem nodeText_removeChild_ne (dom : Dom) (id j : Nat) (h : id ≠ j) :
    (dom.removeChild j).nodeText id = dom.nodeText id := by
  simp [Dom.removeChild, Dom.nodeText, find?_eraseP_ne id j h]

theorem wfIds_removeChild (dom : Dom) (j : Nat) (h : dom.wfIds = true) :
    (dom.removeChild j).wfIds = true := by
  simp only [Dom.wfIds, List.all_eq_true] at h ⊢
  intro x hx
  exact h x ((List.eraseP_sublist dom.childNodes).subset hx)

theorem fresh_removeChild (dom : Dom) (j : Nat) :
    (dom.removeChild j).fresh = dom.fresh := rfl

theorem find?_map_setText (i : Nat) (t : String) :
    ∀ l : List SNode, (l.find? (fun n => n.id = i)).isSome = true →
      (l.map (fun n => if n.id = i then { n with text := t } else n)).find?
        (fun n => n.id = i) = some ⟨i, t⟩
  | [], h => by simp at h
  | x :: xs, h => by
    by_cases hx : x.id = i
    · have hp : decide (({ x with text := t } : SNode).id = i) = true :=
        decide_eq_true (by simpa using hx)
      simp only [List.map_cons, if_pos hx, List.find?_cons, hp]
      simp [hx]
    · have hd : decide (x.id = i) = false := decide_eq_false hx
      simp only [List.find?_cons, hd] at h
      simp only [List.map_cons, if_neg hx, List.find?_cons, hd]
      exact find?_map_setText i t xs h

theorem nodeText_setText_self (dom : Dom) (i : Nat) (t : String)
    (h : (dom.nodeText i).isSome = true) :
    (dom.setText (some i) t).nodeText i = some t := by
  simp only [Dom.nodeText, Option.isSome_map'] at h
  simp only [Dom.setText, Dom.nodeText]
  rw [find?_map_setText i t dom.childNodes h]
  rfl

theorem nodeText_isSome_lt_fresh (dom : Dom) (j : Nat)
    (h : (dom.nodeText j).isSome = true) (hwf : dom.wfIds = true) :
    j < dom.fresh := by
  simp only [Dom.nodeText, Option.isSome_map'] at h
  obtain ⟨n, hmem, hpred⟩ := List.find?_isSome.mp h
  have hid : n.id = j := by simpa using hpred
  simp only [Dom.wfIds, List.all_eq_true] at hwf
  have hlt := hwf n hmem
  simp only [decide_eq_true_eq] at hlt
  exact hid ▸ hlt

mutual

theorem detach_fresh (v : VNode) (dom : Dom) :
    (detach v dom).1.fresh = dom.fresh := by
  cases v with
  | vtext t r => cases r <;> simp [detach, Dom.removeChild]
  | vref n => simp [detach, Dom.removeChild]
  | vlist b children =>
    simpa [detach] using detachChildren_fresh children dom none

theorem detachChildren_fresh (cs : List VNode) (dom : Dom) (last : Option Nat) :
    (detachChildren cs dom last).1.fresh = dom.fresh := by
  cases cs with
  | nil => simp [detachChildren]
  | cons c cs2 =>
    simp only [detachChildren]
    rw [detachChildren_fresh cs2]
    exact detach_fresh c dom

end

mutual

theorem detach_wfIds (v : VNode) (dom : Dom) (h : dom.wfIds = true) :
    (detach v dom).1.wfIds = true := by
  cases v with
  | vtext t r =>
    cases r with
    | none => simpa [detach] using h
    | some i => simpa [detach] using wfIds_removeChild dom i h
  | vref n => simpa [detach] using wfIds_removeChild dom n.id h
  | vlist b children =>
    simpa [detach] using detachChildren_wfIds children dom none h

theorem detachChildren_wfIds (cs : List VNode) (dom : Dom) (last : Option Nat)
    (h : dom.wfIds = true) :
    (detachChildren cs dom last).1.wfIds = true := by
  cases cs with
  | nil => simpa [detachChildren] using h
  | cons c cs2 =>
    simp only [detachChildren]
    exact detachChildren_wfIds cs2 _ _ (detach_wfIds c dom h)

end

mutual

theorem detach_nodeText_ne (v : VNode) (dom : Dom) (id : Nat)
    (h : id ∉ v.refs) :
    (detach v dom).1.nodeText id = dom.nodeText id := by
  cases v with
  | vtext t r =>
    cases r with
    | none => simp [detach]
    | some i =>
      have : id ≠ i := by simpa [VNode.refs] using h
      simpa [detach] using nodeText_removeChild_ne dom id i this
  | vref n =>
    have : id ≠ n.id := by simpa [VNode.refs] using h
    simpa [detach] using nodeText_removeChild_ne dom id n.id this
  | vlist b children =>
    have : id ∉ refsList children := by simpa [VNode.refs] using h
    simpa [detach] using detachChildren_nodeText_ne children dom none id this

theorem detachChildren_nodeText_ne (cs : List VNode) (dom : Dom)
    (last : Option Nat) (id : Nat) (h : id ∉ refsList cs) :
    (detachChildren cs dom last).1.nodeText id = dom.nodeText id := by
  cases cs with
  | nil => simp [detachChildren]
  | cons c cs2 =>
    simp only [refsList, List.mem_append, not_or] at h
    simp only [detachChildren]
    rw [detachChildren_nodeText_ne cs2 _ _ id h.2]
    exact detach_nodeText_ne c dom id h.1

end

mutual

theorem renderedIn_refs_isSome (dom : Dom) (v : VNode)
    (h : renderedIn dom v = true) :
    ∀ j ∈ v.refs, (dom.nodeText j).isSome = true := by
  intro j hj
  cases v with
  | vtext t r =>
    cases r with
    | none => simp [renderedIn] at h
    | some i =>
      have : j = i := by simpa [VNode.refs] using hj
      subst this
      simp only [renderedIn, beq_iff_eq] at h
      simp [h]
  | vref n =>
    have hji : j = n.id := by simpa [VNode.refs] using hj
    subst hji
    simp only [renderedIn, Dom.containsId, List.any_eq_true] at h
    obtain ⟨m, hm, hmid⟩ := h
    simp only [Dom.nodeText, Option.isSome_map']
    apply List.find?_isSome.mpr
    exact ⟨m, hm, hmid⟩
  | vlist b children =>
    have h2 : renderedInList dom children = true := by
      simpa [renderedIn] using h
    have hj2 : j ∈ refsList children := by simpa [VNode.refs] using hj
    exact renderedInList_refs_isSome dom children h2 j hj2

theorem renderedInList_refs_isSome (dom : Dom) (cs : List VNode)
    (h : renderedInList dom cs = true) :
    ∀ j ∈ refsList cs, (dom.nodeText j).isSome = true := by
  intro j hj
  cases cs with
  | nil => simp [refsList] at hj
  | cons c cs2 =>
    simp only [renderedInList, Bool.and_eq_true] at h
    simp only [refsList, List.mem_append] at hj
    cases hj with
    | inl hj1 => exact renderedIn_refs_isSome dom c h.1 j hj1
    | inr hj2 => exact renderedInList_refs_isSome dom cs2 h.2 j hj2

end

theorem wfIds_ne_fresh (dom : Dom) (hwf : dom.wfIds = true) :
    ∀ m ∈ dom.childNodes, m.id ≠ dom.fresh := by
  intro m hm
  simp only [Dom.wfIds, List.all_eq_true] at hwf
  have hlt := hwf m hm
  simp only [decide_eq_true_eq] at hlt
  omega

theorem insertFresh_node (t : String) (dom : Dom) (prev sib : Option Nat) :
    (insertFresh t dom prev sib).1 = .vtext t (some dom.fresh) := rfl

theorem insertFresh_anchor (t : String) (dom : Dom) (prev sib : Option Nat) :
    (insertFresh t dom prev sib).2.2 = some dom.fresh := rfl

theorem insertFresh_nodeText (t : String) (dom : Dom) (prev sib : Option Nat)
    (h : ∀ m ∈ dom.childNodes, m.id ≠ dom.fresh) :
    (insertFresh t dom prev sib).2.1.nodeText dom.fresh = some t := by
  simp only [insertFresh]
  cases sib with
  | some s =>
    exact nodeText_insertBefore_self { dom with fresh := dom.fresh + 1 }
      ⟨dom.fresh, t⟩ (some s) h
  | none =>
    cases prev with
    | some p =>
      exact nodeText_insertBefore_self { dom with fresh := dom.fresh + 1 }
        ⟨dom.fresh, t⟩ _ h
    | none =>
      exact nodeText_insertBefore_self { dom with fresh := dom.fresh + 1 }
        ⟨dom.fresh, t⟩ none h

theorem applyText_placeholder (dom : Dom) (prev : Option Nat) (c1 : VNode)
    (hwf : dom.wfIds = true) (hr : renderedIn dom c1 = true) :
    ∃ id, (applyText "" dom prev (some c1)).1 = .vtext "" (some id) ∧
      (applyText "" dom prev (some c1)).2.2 = some id ∧
      (applyText "" dom prev (some c1)).2.1.nodeText id = some "" ∧
      (id ∈ c1.refs ∨ id = dom.fresh) := by
  cases c1 with
  | vtext t r =>
    cases r with
    | none => simp [renderedIn] at hr
    | some i =>
      have hti : dom.nodeText i = some t := by
        simpa [renderedIn] using hr
      refine ⟨i, ?_, ?_, ?_, Or.inl (by simp [VNode.refs])⟩
      · simp [applyText]
      · simp [applyText]
      · by_cases ht : t = ""
        · subst ht
          simp [applyText, hti]
        · have hne : ("" : String) ≠ t := fun hc => ht hc.symm
          simp only [applyText, if_pos hne]
          exact nodeText_setText_self dom i "" (by simp [hti])
  | vref n =>
    refine ⟨dom.fresh, ?_, ?_, ?_, Or.inr rfl⟩
    · simp [applyText, detach, insertFresh_node, fresh_removeChild]
    · simp [applyText, detach, insertFresh_anchor, fresh_removeChild]
    · simp only [applyText, detach]
      have hwf2 := wfIds_removeChild dom n.id hwf
      have h2 := insertFresh_nodeText "" (dom.removeChild n.id) prev
        (dom.nextSibling n.id) (wfIds_ne_fresh _ hwf2)
      simpa [fresh_removeChild] using h2
  | vlist b cs =>
    refine ⟨dom.fresh, ?_, ?_, ?_, Or.inr rfl⟩
    · simp only [applyText, detach]
      rw [insertFresh_node]
      rw [detachChildren_fresh]
    · simp only [applyText, detach]
      rw [insertFresh_anchor]
      rw [detachChildren_fresh]
    · simp only [applyText, detach]
      have hwf2 := detachChildren_wfIds cs dom none hwf
      have h2 := insertFresh_nodeText "" (detachChildren cs dom none).1 prev
        (detachChildren cs dom none).2 (wfIds_ne_fresh _ hwf2)
      rw [detachChildren_fresh] at h2
      exact h2

/-- C3: applying a `List` node whose children collection is empty and whose
`no_siblings` flag is false pushes exactly one synthetic zero-length Text
placeholder as its only child before positional reconciliation, and — on a
well-formed surface with a validly rendered ancestor — the list ends up
occupying exactly one surface text node, the placeholder's, at its position:
never zero nodes. -/
theorem empty_list_placeholder (dom : Dom) (prev : Option Nat)
    (anc : Option VNode) (hwf : dom.wfIds = true)
    (hv : validAncestor dom anc) :
    ∃ id,
      (applyNode (.vlist false []) dom prev anc).1 =
        .vlist false [.vtext "" (some id)] ∧
      (applyNode (.vlist false []) dom prev anc).2.2 = some id ∧
      ((applyNode (.vlist false []) dom prev anc).2.1).nodeText id
        = some "" := by
  cases anc with
  | none =>
    have h1 : applyNode (.vlist false []) dom prev none =
        (.vlist false [(insertFresh "" dom prev none).1],
         (insertFresh "" dom prev none).2.1,
         (insertFresh "" dom prev none).2.2) := by
      rw [applyNode.eq_def]
      simp [applyEmptyList, ancestorRights, applyText]
    refine ⟨dom.fresh, ?_, ?_, ?_⟩ <;> rw [h1]
    · rw [insertFresh_node]
    · rw [insertFresh_anchor]
    · exact insertFresh_nodeText "" dom prev none (wfIds_ne_fresh dom hwf)
  | some a =>
    obtain ⟨hr, hnd⟩ := hv
    cases a with
    | vtext t r =>
      have h1 : applyNode (.vlist false []) dom prev (some (.vtext t r)) =
          (.vlist false [(applyText "" dom prev (some (.vtext t r))).1],
           (applyText "" dom prev (some (.vtext t r))).2.1,
           (applyText "" dom prev (some (.vtext t r))).2.2) := by
        rw [applyNode.eq_def]
        simp [applyEmptyList, ancestorRights, detachChildren]
      obtain ⟨id, ha, hb, hc, -⟩ :=
        applyText_placeholder dom prev (.vtext t r) hwf hr
      refine ⟨id, ?_, ?_, ?_⟩ <;> rw [h1]
      · rw [ha]
      · exact hb
      · exact hc
    | vref n =>
      have h1 : applyNode (.vlist false []) dom prev (some (.vref n)) =
          (.vlist false [(applyText "" dom prev (some (.vref n))).1],
           (applyText "" dom prev (some (.vref n))).2.1,
           (applyText "" dom prev (some (.vref n))).2.2) := by
        rw [applyNode.eq_def]
        simp [applyEmptyList, ancestorRights, detachChildren]
      obtain ⟨id, ha, hb, hc, -⟩ :=
        applyText_placeholder dom prev (.vref n) hwf hr
      refine ⟨id, ?_, ?_, ?_⟩ <;> rw [h1]
      · rw [ha]
      · exact hb
      · exact hc
    | vlist b cs =>
      cases cs with
      | nil =>
        have h1 : applyNode (.vlist false []) dom prev (some (.vlist b [])) =
            (.vlist false [(insertFresh "" dom prev none).1],
             (insertFresh "" dom prev none).2.1,
             (insertFresh "" dom prev none).2.2) := by
          rw [applyNode.eq_def]
          simp [applyEmptyList, ancestorRights, applyText]
        refine ⟨dom.fresh, ?_, ?_, ?_⟩ <;> rw [h1]
        · rw [insertFresh_node]
        · rw [insertFresh_anchor]
        · exact insertFresh_nodeText "" dom prev none (wfIds_ne_fresh dom hwf)
      | cons c1 rest =>
        have hr2 : renderedIn dom c1 = true ∧
            renderedInList dom rest = true := by
          simpa [renderedIn, renderedInList] using hr
        have hnd2 : (c1.refs ++ refsList rest).Nodup := by
          simpa [VNode.refs, refsList] using hnd
        have h1 : applyNode (.vlist false [])
              dom prev (some (.vlist b (c1 :: rest))) =
            (.vlist false [(applyText "" dom prev (some c1)).1],
             (detachChildren rest (applyText "" dom prev (some c1)).2.1
               none).1,
             (applyText "" dom prev (some c1)).2.2) := by
          rw [applyNode.eq_def]
          simp [applyEmptyList, ancestorRights]
        obtain ⟨id, ha, hb, hc, hd⟩ :=
          applyText_placeholder dom prev c1 hwf hr2.1
        have hnotin : id ∉ refsList rest := by
          cases hd with
          | inl hin =>
            exact fun hcon =>
              (List.disjoint_of_nodup_append hnd2) hin hcon
          | inr hfr =>
            intro hcon
            have hsome := renderedInList_refs_isSome dom rest hr2.2 id hcon
            have hlt := nodeText_isSome_lt_fresh dom id hsome hwf
            omega
        refine ⟨id, ?_, ?_, ?_⟩ <;> rw [h1]
        · rw [ha]
        · exact hb
        · rw [detachChildren_nodeText_ne rest _ none id hnotin]
          exact hc

/-- Closed instance of C3: the spec §8 scenario — the ancestor list held one
rendered text child "X" at node 1 inside the surface A, X, B; re-applying
with empty children leaves the placeholder as only child, occupying node 1
with empty text. -/
theorem empty_list_placeholder_witness :
    Dom.wfIds ⟨[⟨0, "A"⟩, ⟨1, "X"⟩, ⟨2, "B"⟩], 3⟩ = true ∧
    validAncestor ⟨[⟨0, "A"⟩, ⟨1, "X"⟩, ⟨2, "B"⟩], 3⟩
      (some (.vlist false [.vtext "X" (some 1)])) ∧
    ∃ id,
      (applyNode (.vlist false []) ⟨[⟨0, "A"⟩, ⟨1, "X"⟩, ⟨2, "B"⟩], 3⟩
          (some 0) (some (.vlist false [.vtext "X" (some 1)]))).1 =
        .vlist false [.vtext "" (some id)] ∧
      (applyNode (.vlist false []) ⟨[⟨0, "A"⟩, ⟨1, "X"⟩, ⟨2, "B"⟩], 3⟩
          (some 0) (some (.vlist false [.vtext "X" (some 1)]))).2.2 =
        some id ∧
      ((applyNode (.vlist false []) ⟨[⟨0, "A"⟩, ⟨1, "X"⟩, ⟨2, "B"⟩], 3⟩
          (some 0) (some (.vlist false [.vtext "X" (some 1)]))).2.1).nodeText
        id = some "" := by
  refine ⟨by decide, ⟨?_, ?_⟩, ?_⟩
  · decide
  · decide
  · exact empty_list_placeholder ⟨[⟨0, "A"⟩, ⟨1, "X"⟩, ⟨2, "B"⟩], 3⟩ (some 0)
      (some (.vlist false [.vtext "X" (some 1)])) (by decide)
      ⟨by decide, by decide⟩

theorem applyChildren_nil_lefts :
    ∀ (rights : List VNode) (dom : Dom) (prev : Option Nat),
      applyChildren [] rights dom prev = ([], specDetachExtra rights dom, prev)
  | [], dom, prev => by simp [applyChildren, specDetachExtra]
  | r :: rs, dom, prev => by
    simp only [applyChildren]
    rw [applyChildren_nil_lefts rs]
    simp [specDetachExtra]

theorem specListReconcile_nil_rights (lefts : List VNode) (dom : Dom)
    (prev : Option Nat) :
    specListReconcile lefts [] dom prev = specApplyNew lefts dom prev := by
  simp [specListReconcile, specPairwise, List.zip_nil_right]

theorem applyChildren_eq_specListReconcile :
    ∀ (lefts rights : List VNode) (dom : Dom) (prev : Option Nat),
      applyChildren lefts rights dom prev =
        specListReconcile lefts rights dom prev
  | [], rights, dom, prev => by
    rw [applyChildren_nil_lefts]
    cases rights with
    | nil =>
      simp [specListReconcile, specPairwise, specApplyNew, specDetachExtra]
    | cons r rs =>
      simp [specListReconcile, specPairwise]
  | l :: ls, [], dom, prev => by
    rw [specListReconcile_nil_rights]
    simp only [applyChildren, specApplyNew]
    rw [applyChildren_eq_specListReconcile ls [], specListReconcile_nil_rights]
  | l :: ls, r :: rs, dom, prev => by
    simp only [applyChildren]
    rw [applyChildren_eq_specListReconcile ls rs]
    simp only [specListReconcile, List.zip_cons_cons, specPairwise,
      List.length_cons, List.drop_succ_cons]
    by_cases hlen : rs.length ≤ ls.length
    · rw [if_pos hlen, if_pos (Nat.succ_le_succ hlen)]
      simp [List.zip]
    · rw [if_neg hlen, if_neg (fun hc => hlen (Nat.le_of_succ_le_succ hc))]
      simp [List.zip]

theorem nextSiblingInList_append_last (n : SNode) :
    ∀ l : List SNode, (∀ m ∈ l, m.id ≠ n.id) →
      nextSiblingInList (l ++ [n]) n.id = none
  | [], _ => by simp [nextSiblingInList]
  | x :: xs, h => by
    have hx : ¬ (x.id = n.id) := h x (by simp)
    simp only [List.cons_append, nextSiblingInList, if_neg hx]
    exact nextSiblingInList_append_last n xs (fun m hm => h m (by simp [hm]))

theorem wfIds_append_fresh (dom : Dom) (t : String) (h : dom.wfIds = true) :
    Dom.wfIds ⟨dom.childNodes ++ [⟨dom.fresh, t⟩], dom.fresh + 1⟩ = true := by
  simp only [Dom.wfIds, List.all_eq_true] at h ⊢
  intro x hx
  simp only [List.mem_append, List.mem_singleton] at hx
  cases hx with
  | inl hx1 =>
    have := h x hx1
    simp only [decide_eq_true_eq] at this ⊢
    omega
  | inr hx2 =>
    subst hx2
    simp

theorem insertFresh_at_end (t : String) (dom : Dom) (prev : Option Nat)
    (hanchor : dom.anchorNext prev = none) :
    insertFresh t dom prev none =
      (.vtext t (some dom.fresh),
       ⟨dom.childNodes ++ [⟨dom.fresh, t⟩], dom.fresh + 1⟩,
       some dom.fresh) := by
  cases prev with
  | none => simp [insertFresh, Dom.insertBefore]
  | some p =>
    have hp : nextSiblingInList dom.childNodes p = none := by
      simpa [Dom.anchorNext, Dom.nextSibling] using hanchor
    simp [insertFresh, Dom.nextSibling, hp, Dom.insertBefore]

theorem applyChildren_fresh_append :
    ∀ (ts : List String) (dom : Dom) (prev : Option Nat),
      dom.wfIds = true → dom.anchorNext prev = none →
      ((applyChildren (ts.map (fun t => VNode.vtext t none)) [] dom
          prev).2.1).childNodes.map SNode.text =
        dom.childNodes.map SNode.text ++ ts
  | [], dom, prev, _, _ => by simp [applyChildren]
  | t :: ts, dom, prev, hwf, ha => by
    have hstep : applyNode (.vtext t none) dom prev none =
        insertFresh t dom prev none := by
      rw [applyNode.eq_def]
      simp [applyText]
    have hnext : Dom.anchorNext
        ⟨dom.childNodes ++ [⟨dom.fresh, t⟩], dom.fresh + 1⟩
        (some dom.fresh) = none := by
      simp only [Dom.anchorNext, Dom.nextSibling]
      exact nextSiblingInList_append_last ⟨dom.fresh, t⟩ dom.childNodes
        (wfIds_ne_fresh dom hwf)
    simp only [List.map_cons, applyChildren]
    rw [hstep, insertFresh_at_end t dom prev ha]
    dsimp only
    rw [applyChildren_fresh_append ts
      { childNodes := dom.childNodes ++ [{ id := dom.fresh, text := t }],
        fresh := dom.fresh + 1 } (some dom.fresh)
      (wfIds_append_fresh dom t hwf) hnext]
    simp

/-- C8: positional list reconciliation.  First conjunct: the reconciliation
loop of `VList::apply` coincides with the specification reading — new child
`i` is reconciled against ancestor child `i`, trailing ancestor children with
no counterpart are detached, trailing new children are freshly materialized
threading `previous_sibling` forward.  Second conjunct: threading makes
consecutively inserted fresh text nodes land in list order at the anchor (at
the end of a well-formed surface when the anchor has no next sibling). -/
theorem positional_list_reconciliation :
    (∀ (lefts rights : List VNode) (dom : Dom) (prev : Option Nat),
       applyChildren lefts rights dom prev =
         specListReconcile lefts rights dom prev) ∧
    (∀ (ts : List String) (dom : Dom) (prev : Option Nat),
       dom.wfIds = true → dom.anchorNext prev = none →
       ((applyChildren (ts.map (fun t => VNode.vtext t none)) [] dom
           prev).2.1).childNodes.map SNode.text =
         dom.childNodes.map SNode.text ++ ts) :=
  ⟨applyChildren_eq_specListReconcile, applyChildren_fresh_append⟩

/-- Closed instance of C8: a two-new-children vs three-ancestor-children
reconciliation agrees with the spec reading, and three fresh texts inserted
after an existing node come out in list order. -/
theorem positional_list_reconciliation_witness :
    applyChildren [.vtext "A" none, .vtext "B" none]
        [.vtext "x" (some 0), .vtext "y" (some 1), .vtext "z" (some 2)]
        ⟨[⟨0, "x"⟩, ⟨1, "y"⟩, ⟨2, "z"⟩], 3⟩ none =
      specListReconcile [.vtext "A" none, .vtext "B" none]
        [.vtext "x" (some 0), .vtext "y" (some 1), .vtext "z" (some 2)]
        ⟨[⟨0, "x"⟩, ⟨1, "y"⟩, ⟨2, "z"⟩], 3⟩ none ∧
    ((applyChildren ((["A", "B", "C"]).map (fun t => VNode.vtext t none)) []
        ⟨[⟨0, "x"⟩], 1⟩ (some 0)).2.1).childNodes.map SNode.text =
      ["x", "A", "B", "C"] := by
  constructor
  · exact positional_list_reconciliation.1 _ _ _ _
  · have h := positional_list_reconciliation.2 ["A", "B", "C"]
      ⟨[⟨0, "x"⟩], 1⟩ (some 0) (by decide) (by decide)
    simpa using h

end VDom

end Yew
